import Mathlib

/-!
Verification of the osprey transaction-evaluation engine.

This file shallowly embeds the decision-relevant parts of the source:
  * `internal/domain` - the data model (floats are modelled as `ℚ`;
    the Go code only adds, multiplies, divides and compares them),
  * `internal/tadp/tadp.go` - the decision processor (`Processor.aggregate`,
    `Processor.Process`, `Processor.buildTypologyResults`),
  * the CEL rule engine (`matchBand`, `Engine.LoadRule`, `Engine.ReloadRules`,
    `Engine.GetLoadedRules`) with the CEL compiler kept abstract as a
    function `RuleConfig → Except String Prog`,
  * the typology engine (`TypologyEngine.evaluateTypology`,
    `TypologyEngine.EvaluateTypologies`),
  * the HTTP handler decision paths of `internal/api/handler.go`
    (`Handler.CreateRule`, `Handler.Ready`, `Handler.Health`, and the
    status/typology-invocation logic of `Handler.Evaluate`).
-/

/-! ## Domain model (internal/domain) -/

/-- Go constant `domain.RuleOutcomePass` ("rule.go"). -/
def RuleOutcomePass : String := ".pass"

/-- Go constant `domain.RuleOutcomeFail`. -/
def RuleOutcomeFail : String := ".fail"

/-- Go constant `domain.RuleOutcomeReview`. -/
def RuleOutcomeReview : String := ".review"

/-- Go constant `domain.RuleOutcomeError`. -/
def RuleOutcomeError : String := ".err"

/-- Go constant `domain.StatusAlert` ("evaluation.go"). -/
def StatusAlert : String := "ALRT"

/-- Go constant `domain.StatusNoAlert`. -/
def StatusNoAlert : String := "NALT"

/-- `domain.RuleBand` : maps a score range to an outcome.  `LowerLimit` and
`UpperLimit` are `*float64` in Go, hence `Option ℚ` here. -/
structure RuleBand where
  lowerLimit : Option ℚ
  upperLimit : Option ℚ
  subRuleRef : String
  reason : String
deriving Repr, DecidableEq

/-- `domain.RuleResult` : the output of a rule evaluation (the fields the
decision logic reads; `tenant_id`, `tx_id` and `process_ms` are carried
through unchanged by the processor and are omitted). -/
structure RuleResult where
  ruleID : String
  subRuleRef : String
  score : ℚ
  reason : String
  weight : ℚ
deriving Repr, DecidableEq

/-- `domain.RuleConfig` : a user-authored rule definition. -/
structure RuleConfig where
  id : String
  tenantID : String
  name : String
  expression : String
  bands : List RuleBand
  weight : ℚ
  enabled : Bool
deriving Repr, DecidableEq

/-- `domain.TypologyRuleWeight` : one rule reference inside a typology. -/
structure TypologyRuleWeight where
  ruleID : String
  weight : ℚ
deriving Repr, DecidableEq

/-- `domain.Typology` : a weighted bundle of rules with an alert threshold. -/
structure Typology where
  id : String
  name : String
  rules : List TypologyRuleWeight
  alertThreshold : ℚ
  enabled : Bool
deriving Repr, DecidableEq

/-- `domain.RuleContribution` : how one rule contributed to a typology score. -/
structure RuleContribution where
  ruleID : String
  ruleScore : ℚ
  weight : ℚ
  contribution : ℚ
deriving Repr, DecidableEq

/-- `domain.TypologyResult` : the aggregated result of rules for a typology. -/
structure TypologyResult where
  typologyID : String
  typologyName : String
  score : ℚ
  threshold : ℚ
  triggered : Bool
  rules : List RuleResult
  contributions : List RuleContribution
deriving Repr, DecidableEq

/-- `domain.Evaluation` : the final verdict (decision-relevant fields;
ids and timestamps are fresh UUIDs / clock reads and are omitted).
`rulesEvaluated` / `typologiesEvaluated` are the metadata counters that
`Processor.Process` fills in. -/
structure Evaluation where
  status : String
  score : ℚ
  ruleResults : List RuleResult
  typologyResults : List TypologyResult
  rulesEvaluated : ℕ
  typologiesEvaluated : ℕ
deriving Repr, DecidableEq

/-! ## Decision processor (internal/tadp/tadp.go) -/

/-- `tadp.Processor` : threshold and weighting configuration. -/
structure Processor where
  alertThreshold : ℚ
  useWeightedScoring : Bool
deriving Repr, DecidableEq

/-- `tadp.NewProcessor()` : default threshold 0.7, weighted scoring on. -/
def NewProcessor : Processor :=
  { alertThreshold := 7/10, useWeightedScoring := true }

/-- `tadp.DecisionInput` (decision-relevant fields). -/
structure DecisionInput where
  ruleResults : List RuleResult
  typologyResults : List TypologyResult
deriving Repr, DecidableEq

/-- `tadp.AggregateResult`. -/
structure AggregateResult where
  aggregateScore : ℚ
  totalWeight : ℚ
  rulesTriggered : ℕ
  hasCriticalFailure : Bool
deriving Repr, DecidableEq

/-- One iteration of the loop body of `Processor.aggregate`
(tadp.go lines 126-147). -/
def aggregateStep (useWeighted : Bool) (agg : AggregateResult) (r : RuleResult) :
    AggregateResult :=
  let weight : ℚ := if r.weight ≤ 0 then 1 else r.weight
  let agg :=
    if r.subRuleRef = RuleOutcomeFail then
      { agg with hasCriticalFailure := true, rulesTriggered := agg.rulesTriggered + 1 }
    else if r.subRuleRef = RuleOutcomeReview then
      { agg with rulesTriggered := agg.rulesTriggered + 1 }
    else agg
  if useWeighted then
    { agg with aggregateScore := agg.aggregateScore + r.score * weight,
               totalWeight := agg.totalWeight + weight }
  else
    { agg with aggregateScore := agg.aggregateScore + r.score,
               totalWeight := agg.totalWeight + 1 }

/-- `Processor.aggregate` (tadp.go lines 119-155): loop then normalize by
`totalWeight` when it is positive. -/
def Processor.aggregate (p : Processor) (results : List RuleResult) : AggregateResult :=
  if results.isEmpty then ⟨0, 0, 0, false⟩
  else
    let agg := results.foldl (aggregateStep p.useWeightedScoring) ⟨0, 0, 0, false⟩
    if 0 < agg.totalWeight then
      { agg with aggregateScore := agg.aggregateScore / agg.totalWeight }
    else agg

/-- `Processor.buildTypologyResults` (tadp.go lines 159-173): the legacy
single "fraud-detection-001" typology result. -/
def Processor.buildTypologyResults (p : Processor) (rules : List RuleResult)
    (agg : AggregateResult) : List TypologyResult :=
  if rules.isEmpty then []
  else
    [{ typologyID := "fraud-detection-001"
       typologyName := ""
       score := agg.aggregateScore
       threshold := p.alertThreshold
       triggered := decide (p.alertThreshold ≤ agg.aggregateScore) || agg.hasCriticalFailure
       rules := rules
       contributions := [] }]

/-- `Processor.Process` (tadp.go lines 41-108): if typology results were
provided, alert on any trigger or critical failure and report the running
maximum of the typology scores (initialised at 0.0); otherwise alert on a
critical failure or an aggregate at/above the threshold. -/
def Processor.Process (p : Processor) (input : DecisionInput) : Evaluation :=
  let aggResult := p.aggregate input.ruleResults
  if 0 < input.typologyResults.length then
    let anyTypologyTriggered := input.typologyResults.any (·.triggered)
    let maxTypologyScore :=
      input.typologyResults.foldl (fun m t => if m < t.score then t.score else m) 0
    { status := if anyTypologyTriggered || aggResult.hasCriticalFailure
                then StatusAlert else StatusNoAlert
      score := maxTypologyScore
      ruleResults := input.ruleResults
      typologyResults := input.typologyResults
      rulesEvaluated := input.ruleResults.length
      typologiesEvaluated := input.typologyResults.length }
  else
    { status := if aggResult.hasCriticalFailure
                   || decide (p.alertThreshold ≤ aggResult.aggregateScore)
                then StatusAlert else StatusNoAlert
      score := aggResult.aggregateScore
      ruleResults := input.ruleResults
      typologyResults := p.buildTypologyResults input.ruleResults aggResult
      rulesEvaluated := input.ruleResults.length
      typologiesEvaluated := input.typologyResults.length }

/-! ## Facts about the aggregation loop -/

theorem aggregateStep_hasCritical (b : Bool) (agg : AggregateResult) (r : RuleResult) :
    (aggregateStep b agg r).hasCriticalFailure =
      (agg.hasCriticalFailure || decide (r.subRuleRef = RuleOutcomeFail)) := by
  have hrf : RuleOutcomeReview ≠ RuleOutcomeFail := by decide
  unfold aggregateStep
  by_cases hf : r.subRuleRef = RuleOutcomeFail <;>
    by_cases hr : r.subRuleRef = RuleOutcomeReview <;>
      cases b <;> simp [hf, hr, hrf]

theorem foldl_aggregateStep_hasCritical (b : Bool) (rs : List RuleResult)
    (init : AggregateResult) :
    (rs.foldl (aggregateStep b) init).hasCriticalFailure =
      (init.hasCriticalFailure
        || rs.any fun r => decide (r.subRuleRef = RuleOutcomeFail)) := by
  induction rs generalizing init with
  | nil => simp
  | cons r rs ih =>
      simp [List.foldl_cons, ih, aggregateStep_hasCritical, Bool.or_assoc]

theorem aggregate_hasCritical (p : Processor) (rs : List RuleResult) :
    (p.aggregate rs).hasCriticalFailure =
      rs.any fun r => decide (r.subRuleRef = RuleOutcomeFail) := by
  unfold Processor.aggregate
  rcases rs with _ | ⟨r, rs⟩
  · simp
  · simp only [List.isEmpty_cons, if_false, Bool.false_eq_true]
    split <;> simp [foldl_aggregateStep_hasCritical, aggregateStep_hasCritical]

theorem aggregate_hasCritical_iff (p : Processor) (rs : List RuleResult) :
    (p.aggregate rs).hasCriticalFailure = true ↔
      ∃ r ∈ rs, r.subRuleRef = RuleOutcomeFail := by
  simp [aggregate_hasCritical, List.any_eq_true]

/-! ## C1 : a `.fail` outcome always alerts -/

/-- C1. For every decision input, if at least one rule result has outcome
`.fail` then the Evaluation produced by the decision processor has status
ALRT, for every processor configuration (hence every mode), independently
of the aggregate score and of whether any typology triggered. -/
theorem c1_fail_implies_alert (p : Processor) (input : DecisionInput)
    (h : ∃ r ∈ input.ruleResults, r.subRuleRef = RuleOutcomeFail) :
    (p.Process input).status = StatusAlert := by
  have hc : (p.aggregate input.ruleResults).hasCriticalFailure = true :=
    (aggregate_hasCritical_iff p input.ruleResults).mpr h
  unfold Processor.Process
  split <;> simp [hc]

/-- Concrete input for the C1 witness: one passing rule and one failing rule,
no typology results. -/
def inputC1 : DecisionInput :=
  { ruleResults :=
      [ { ruleID := "rule-1", subRuleRef := ".pass", score := 1/10, reason := "", weight := 1 },
        { ruleID := "rule-2", subRuleRef := ".fail", score := 1, reason := "over limit", weight := 1 } ]
    typologyResults := [] }

/-- C1 witness: the theorem applied at a concrete input. -/
theorem c1_fail_implies_alert_witness :
    (NewProcessor.Process inputC1).status = StatusAlert :=
  c1_fail_implies_alert NewProcessor inputC1
    ⟨{ ruleID := "rule-2", subRuleRef := ".fail", score := 1, reason := "over limit", weight := 1 },
      by simp [inputC1], rfl⟩

/-! ## Band matching (rule engine, `matchBand`) -/

/-- `matchBand` (rules engine, part_008 lines 242-270), translated branch by
branch: a nil lower limit defaults to 0, a nil upper limit means unbounded
above (the Go placeholder `1e9` is short-circuited away by `!hasUpper`),
and the commented "special case" branch `continue`s exactly like the
fall-through does. -/
def matchBand (score : ℚ) : List RuleBand → String × String
  | [] => (RuleOutcomePass, "no matching band")
  | band :: rest =>
      let lower : ℚ := band.lowerLimit.getD 0
      let hasUpper : Bool := band.upperLimit.isSome
      let upper : ℚ := band.upperLimit.getD (10 ^ 9)
      if lower ≤ score then
        if !hasUpper || decide (score < upper) then (band.subRuleRef, band.reason)
        else if score = upper ∧ hasUpper then matchBand score rest
        else matchBand score rest
      else matchBand score rest

/-- Claim-side band membership: `[lower, upper)` contains the score, lower
inclusive, upper exclusive, absent upper unbounded above. -/
def bandContains (score : ℚ) (band : RuleBand) : Bool :=
  decide (band.lowerLimit.getD 0 ≤ score) &&
    match band.upperLimit with
    | none => true
    | some u => decide (score < u)

/-- Claim-side band matching: first band (in declaration order) containing
the score, else `.pass` with reason "no matching band". -/
def matchBandFirst (score : ℚ) (bands : List RuleBand) : String × String :=
  match bands.find? (bandContains score) with
  | some band => (band.subRuleRef, band.reason)
  | none => (RuleOutcomePass, "no matching band")

/-! ## C2 : band matching is first-match over half-open intervals -/

/-- C2. For every score and band list, `matchBand` walks the bands in
declaration order and returns the tag and reason of the first band whose
half-open interval `[lower, upper)` contains the score (absent upper limit
meaning unbounded above, lower inclusive, upper exclusive); if no band
matches, the outcome is `.pass` with reason "no matching band". -/
theorem c2_matchBand_first_halfopen (score : ℚ) (bands : List RuleBand) :
    matchBand score bands = matchBandFirst score bands := by
  induction bands with
  | nil => simp [matchBand, matchBandFirst]
  | cons band rest ih =>
      rcases band with ⟨lo, up, tag, why⟩
      rcases up with _ | u
      · by_cases hlo : lo.getD 0 ≤ score <;>
          simp [matchBand, matchBandFirst, bandContains, List.find?, hlo, ih]
      · by_cases hlo : lo.getD 0 ≤ score <;>
          by_cases hu : score < u <;>
            simp [matchBand, matchBandFirst, bandContains, List.find?, hlo, hu, ih]

/-! ## C3 : the aggregate score formula -/

/-- Effective weight used by the weighted aggregation: the rule's weight when
positive, 1 otherwise (tadp.go lines 127-130). -/
def effectiveWeight (w : ℚ) : ℚ := if w ≤ 0 then 1 else w

/-- Claim-side weighted numerator: sum of `score * effective weight`. -/
def weightedNumerator (rs : List RuleResult) : ℚ :=
  (rs.map fun r => r.score * effectiveWeight r.weight).sum

/-- Claim-side weighted denominator: sum of effective weights. -/
def weightedDenominator (rs : List RuleResult) : ℚ :=
  (rs.map fun r => effectiveWeight r.weight).sum

/-- Claim-side plain score sum. -/
def scoreSum (rs : List RuleResult) : ℚ :=
  (rs.map fun r => r.score).sum

theorem aggregateStep_score_weighted (agg : AggregateResult) (r : RuleResult) :
    (aggregateStep true agg r).aggregateScore =
      agg.aggregateScore + r.score * effectiveWeight r.weight := by
  have hrf : RuleOutcomeReview ≠ RuleOutcomeFail := by decide
  unfold aggregateStep effectiveWeight
  by_cases hf : r.subRuleRef = RuleOutcomeFail <;>
    by_cases hr : r.subRuleRef = RuleOutcomeReview <;>
      simp [hf, hr, hrf]

theorem aggregateStep_weight_weighted (agg : AggregateResult) (r : RuleResult) :
    (aggregateStep true agg r).totalWeight =
      agg.totalWeight + effectiveWeight r.weight := by
  have hrf : RuleOutcomeReview ≠ RuleOutcomeFail := by decide
  unfold aggregateStep effectiveWeight
  by_cases hf : r.subRuleRef = RuleOutcomeFail <;>
    by_cases hr : r.subRuleRef = RuleOutcomeReview <;>
      simp [hf, hr, hrf]

theorem aggregateStep_score_plain (agg : AggregateResult) (r : RuleResult) :
    (aggregateStep false agg r).aggregateScore = agg.aggregateScore + r.score := by
  have hrf : RuleOutcomeReview ≠ RuleOutcomeFail := by decide
  unfold aggregateStep
  by_cases hf : r.subRuleRef = RuleOutcomeFail <;>
    by_cases hr : r.subRuleRef = RuleOutcomeReview <;>
      simp [hf, hr, hrf]

theorem aggregateStep_weight_plain (agg : AggregateResult) (r : RuleResult) :
    (aggregateStep false agg r).totalWeight = agg.totalWeight + 1 := by
  have hrf : RuleOutcomeReview ≠ RuleOutcomeFail := by decide
  unfold aggregateStep
  by_cases hf : r.subRuleRef = RuleOutcomeFail <;>
    by_cases hr : r.subRuleRef = RuleOutcomeReview <;>
      simp [hf, hr, hrf]

theorem foldl_aggregateStep_weighted (rs : List RuleResult) (init : AggregateResult) :
    (rs.foldl (aggregateStep true) init).aggregateScore =
        init.aggregateScore + weightedNumerator rs ∧
      (rs.foldl (aggregateStep true) init).totalWeight =
        init.totalWeight + weightedDenominator rs := by
  induction rs generalizing init with
  | nil => simp [weightedNumerator, weightedDenominator]
  | cons r rs ih =>
      have h := ih (aggregateStep true init r)
      simp only [List.foldl_cons, h.1, h.2, aggregateStep_score_weighted,
        aggregateStep_weight_weighted, weightedNumerator, weightedDenominator,
        List.map_cons, List.sum_cons]
      constructor <;> ring

theorem foldl_aggregateStep_plain (rs : List RuleResult) (init : AggregateResult) :
    (rs.foldl (aggregateStep false) init).aggregateScore =
        init.aggregateScore + scoreSum rs ∧
      (rs.foldl (aggregateStep false) init).totalWeight =
        init.totalWeight + rs.length := by
  induction rs generalizing init with
  | nil => simp [scoreSum]
  | cons r rs ih =>
      have h := ih (aggregateStep false init r)
      simp only [List.foldl_cons, h.1, h.2, aggregateStep_score_plain,
        aggregateStep_weight_plain, scoreSum, List.map_cons, List.sum_cons,
        List.length_cons]
      constructor <;> push_cast <;> ring

theorem effectiveWeight_pos (w : ℚ) : 0 < effectiveWeight w := by
  unfold effectiveWeight
  split <;> linarith

theorem weightedDenominator_pos (r : RuleResult) (rs : List RuleResult) :
    0 < weightedDenominator (r :: rs) := by
  induction rs generalizing r with
  | nil => simpa [weightedDenominator] using effectiveWeight_pos r.weight
  | cons r' rs ih =>
      have h1 := effectiveWeight_pos r.weight
      have h2 := ih r'
      simp only [weightedDenominator, List.map_cons, List.sum_cons] at *
      linarith

/-- C3. For every non-empty list of rule results, the aggregate score under
weighted scoring equals `(Σ score·w) / (Σ w)` with `w` the rule's weight when
positive and 1 otherwise; under unweighted scoring it is the plain mean of
the scores; and (vacuously satisfiable here) whenever the accumulated
denominator is not positive the score is left unnormalised — the theorem
also shows the denominator is positive for non-empty input, so the
"aggregate is 0 when the denominator is 0" clause never fires. -/
theorem aggregate_score_weighted (p : Processor) (r : RuleResult)
    (rs : List RuleResult) (hw : p.useWeightedScoring = true) :
    (p.aggregate (r :: rs)).aggregateScore =
      weightedNumerator (r :: rs) / weightedDenominator (r :: rs) := by
  have hden := weightedDenominator_pos r rs
  have hfold := foldl_aggregateStep_weighted (r :: rs) ⟨0, 0, 0, false⟩
  simp only [Processor.aggregate, hw, List.isEmpty_cons, Bool.false_eq_true,
    if_false]
  split
  · rw [hfold.1, hfold.2]
    norm_num
  · rename_i h
    rw [hfold.2] at h
    norm_num at h
    exact absurd hden (by simpa using h)

theorem aggregate_score_plain (p : Processor) (r : RuleResult)
    (rs : List RuleResult) (hw : p.useWeightedScoring = false) :
    (p.aggregate (r :: rs)).aggregateScore =
      scoreSum (r :: rs) / (r :: rs).length := by
  have hlen : (0 : ℚ) < ((r :: rs).length : ℚ) := by
    exact_mod_cast Nat.succ_pos rs.length
  have hfold := foldl_aggregateStep_plain (r :: rs) ⟨0, 0, 0, false⟩
  simp only [Processor.aggregate, hw, List.isEmpty_cons, Bool.false_eq_true,
    if_false]
  split
  · rw [hfold.1, hfold.2]
    norm_num
  · rename_i h
    rw [hfold.2] at h
    norm_num at h
    exact absurd hlen (by simpa using h)

/-- C3. For every non-empty list of rule results, the aggregate score under
weighted scoring equals `(Σ score·w) / (Σ w)` with `w` the rule's weight when
positive and 1 otherwise; under unweighted scoring it is the plain mean of
the scores.  The theorem also shows the denominator is positive for
non-empty input, so the source's "leave the sum unnormalised when the
denominator is not positive" branch (the spec's "aggregate is 0 when the
denominator is 0") never fires. -/
theorem c3_aggregate_formula (p : Processor) (rs : List RuleResult)
    (hne : rs ≠ []) :
    (p.useWeightedScoring = true →
        (p.aggregate rs).aggregateScore =
            weightedNumerator rs / weightedDenominator rs ∧
          0 < weightedDenominator rs) ∧
      (p.useWeightedScoring = false →
        (p.aggregate rs).aggregateScore = scoreSum rs / rs.length ∧
          (0 : ℚ) < rs.length) := by
  rcases rs with _ | ⟨r, rs⟩
  · exact absurd rfl hne
  refine ⟨fun hw => ⟨aggregate_score_weighted p r rs hw, weightedDenominator_pos r rs⟩,
    fun hw => ⟨aggregate_score_plain p r rs hw, ?_⟩⟩
  exact_mod_cast Nat.succ_pos rs.length

/-- Concrete rule results for the C3 witness (the `WeightedScoring` shape from
the repository's tests: scores 1 and 1/10, weights 1 and 5). -/
def resultsC3 : List RuleResult :=
  [ { ruleID := "rule-1", subRuleRef := ".review", score := 1, reason := "", weight := 1 },
    { ruleID := "rule-2", subRuleRef := ".pass", score := 1/10, reason := "", weight := 5 } ]

/-- C3 witness: the theorem applied at a concrete non-empty input; the
weighted aggregate is `(1·1 + (1/10)·5) / (1 + 5) = 1/4`. -/
theorem c3_aggregate_formula_witness :
    resultsC3 ≠ [] ∧ (NewProcessor.aggregate resultsC3).aggregateScore = 1/4 := by
  refine ⟨by simp [resultsC3], ?_⟩
  rw [((c3_aggregate_formula NewProcessor resultsC3 (by simp [resultsC3])).1 rfl).1]
  norm_num [weightedNumerator, weightedDenominator, effectiveWeight, resultsC3]

/-! ## The running maximum of typology scores (tadp.go lines 60-69) -/

theorem foldl_runningMax_eq_foldl_max (l : List TypologyResult) (a : ℚ) :
    l.foldl (fun m t => if m < t.score then t.score else m) a =
      l.foldl (fun m t => max m t.score) a := by
  induction l generalizing a with
  | nil => rfl
  | cons t ts ih =>
      have h : (if a < t.score then t.score else a) = max a t.score := by
        rw [max_def]
        split_ifs <;> linarith
      simp only [List.foldl_cons, h, ih]

theorem foldl_max_eq_maximum (l : List TypologyResult) (a : ℚ) :
    ((l.foldl (fun m t => max m t.score) a : ℚ) : WithBot ℚ) =
      max (a : WithBot ℚ) (l.map TypologyResult.score).maximum := by
  induction l generalizing a with
  | nil => simp [List.maximum_nil]
  | cons t ts ih =>
      rw [List.foldl_cons, ih, List.map_cons, List.maximum_cons]
      rw [WithBot.coe_max]
      exact (max_assoc _ _ _)

/-! ## C4 : compliance decision (typology results provided) -/

/-- Concrete input refuting C4 as stated: a single typology result with a
negative score.  `Processor.Process` starts its running maximum at 0.0, so
the reported score is 0, not the maximum typology score -1. -/
def inputC4 : DecisionInput :=
  { ruleResults := []
    typologyResults :=
      [ { typologyID := "t1", typologyName := "t1", score := -1, threshold := 1/2,
          triggered := false, rules := [], contributions := [] } ] }

/-- C4 counterexample: with typology results provided whose maximum score is
-1, the produced Evaluation reports score 0, so the claim "the Evaluation's
reported score equals the maximum typology score" is false at this input. -/
theorem c4_counterexample :
    inputC4.typologyResults ≠ [] ∧
      (inputC4.typologyResults.map TypologyResult.score).maximum = some (-1) ∧
      (NewProcessor.Process inputC4).score = 0 ∧ (0 : ℚ) ≠ -1 := by
  refine ⟨by simp [inputC4], by decide, ?_, by norm_num⟩
  simp [inputC4, NewProcessor, Processor.Process, Processor.aggregate]

/-- C4 (amended). For every decision input whose typology-result list is
non-empty, the Evaluation has status ALRT iff some typology result is
triggered or some rule result has outcome `.fail`, and the Evaluation's
reported score equals the maximum of 0 and the maximum typology score (the
source initialises its running maximum at 0.0). -/
theorem c4_compliance_decision (p : Processor) (input : DecisionInput)
    (hne : input.typologyResults ≠ []) :
    ((p.Process input).status = StatusAlert ↔
        ((∃ t ∈ input.typologyResults, t.triggered = true) ∨
          ∃ r ∈ input.ruleResults, r.subRuleRef = RuleOutcomeFail)) ∧
      ∀ m : ℚ, (input.typologyResults.map TypologyResult.score).maximum = some m →
        (p.Process input).score = max 0 m := by
  have hlen : 0 < input.typologyResults.length := List.length_pos.mpr hne
  have hcrit := aggregate_hasCritical_iff p input.ruleResults
  constructor
  · unfold Processor.Process
    rw [if_pos hlen]
    by_cases htrig : ∃ t ∈ input.typologyResults, t.triggered = true
    · have : input.typologyResults.any (·.triggered) = true := by
        simpa [List.any_eq_true] using htrig
      simp [this, htrig]
    · have : input.typologyResults.any (·.triggered) = false := by
        simpa [List.any_eq_false, -Bool.not_eq_true] using
          fun t ht => by
            by_contra hc
            exact htrig ⟨t, ht, by simpa using hc⟩
      by_cases hfail : ∃ r ∈ input.ruleResults, r.subRuleRef = RuleOutcomeFail
      · have hc : (p.aggregate input.ruleResults).hasCriticalFailure = true :=
          hcrit.mpr hfail
        simp [this, hc, hfail, StatusAlert]
      · have hc : (p.aggregate input.ruleResults).hasCriticalFailure = false := by
          rcases h : (p.aggregate input.ruleResults).hasCriticalFailure
          · rfl
          · exact absurd (hcrit.mp h) hfail
        simp [this, hc, htrig, hfail, StatusAlert, StatusNoAlert]
  · intro m hm
    have hscore : (p.Process input).score =
        input.typologyResults.foldl (fun a t => if a < t.score then t.score else a) 0 := by
      unfold Processor.Process
      rw [if_pos hlen]
    rw [hscore, foldl_runningMax_eq_foldl_max]
    have h := foldl_max_eq_maximum input.typologyResults 0
    rw [hm] at h
    have : ((input.typologyResults.foldl (fun m t => max m t.score) 0 : ℚ) : WithBot ℚ) =
        ((max 0 m : ℚ) : WithBot ℚ) := by
      rw [h, WithBot.coe_max]
      rfl
    exact_mod_cast this

/-- Concrete input for the C4 witness: one triggered typology with score 17/20
and one rule result, as in the repository's compliance tests. -/
def inputC4w : DecisionInput :=
  { ruleResults :=
      [ { ruleID := "rule-1", subRuleRef := ".review", score := 4/5, reason := "", weight := 1 } ]
    typologyResults :=
      [ { typologyID := "typo-structuring", typologyName := "Structuring", score := 17/20,
          threshold := 3/5, triggered := true, rules := [], contributions := [] } ] }

/-- C4 witness: the amended theorem applied at a concrete input — the
triggered typology gives status ALRT and the score is max 0 (17/20). -/
theorem c4_compliance_decision_witness :
    (NewProcessor.Process inputC4w).status = StatusAlert ∧
      (NewProcessor.Process inputC4w).score = max 0 (17/20 : ℚ) := by
  have h := c4_compliance_decision NewProcessor inputC4w (by simp [inputC4w])
  refine ⟨h.1.mpr (Or.inl ⟨inputC4w.typologyResults.head (by simp [inputC4w]), by simp [inputC4w], by simp [inputC4w]⟩), ?_⟩
  refine h.2 (17/20) ?_
  rw [show List.map TypologyResult.score inputC4w.typologyResults =
        [(17/20 : ℚ)] from rfl, List.maximum_singleton]
  rfl

/-! ## C6 : detection mode, all-pass outcomes -/

/-- Concrete input refuting C6 as stated: a single `.pass` rule result whose
score 1 drives the aggregate to 1 ≥ 0.7, so the processor alerts even though
every outcome is `.pass`. -/
def inputC6 : DecisionInput :=
  { ruleResults :=
      [ { ruleID := "r1", subRuleRef := ".pass", score := 1, reason := "", weight := 1 } ]
    typologyResults := [] }

/-- C6 counterexample: every rule result of `inputC6` has outcome `.pass`
(and none `.fail`), no typology results are provided, yet the produced
Evaluation has status ALRT, so the claim "status NALT" is false at this
input. -/
theorem c6_counterexample :
    inputC6.ruleResults.all (fun r => r.subRuleRef == RuleOutcomePass) = true ∧
      inputC6.ruleResults.all (fun r => !(r.subRuleRef == RuleOutcomeFail)) = true ∧
      inputC6.typologyResults = [] ∧
      (NewProcessor.Process inputC6).status = StatusAlert := by
  refine ⟨by decide, by decide, by simp [inputC6], ?_⟩
  have hagg : (NewProcessor.aggregate inputC6.ruleResults).aggregateScore = 1 := by
    rw [show inputC6.ruleResults =
          [⟨"r1", ".pass", 1, "", 1⟩] from rfl]
    rw [aggregate_score_weighted NewProcessor _ [] rfl]
    norm_num [weightedNumerator, weightedDenominator, effectiveWeight]
  unfold Processor.Process
  simp only [inputC6, List.length_nil, lt_irrefl, if_false]
  have hth : decide (NewProcessor.alertThreshold ≤
      (NewProcessor.aggregate inputC6.ruleResults).aggregateScore) = true := by
    rw [hagg]
    norm_num [NewProcessor]
  simp only [inputC6] at hth
  simp [hth]

/-- C6 (amended). For every evaluation in detection mode (no typology results
provided) in which every rule result has outcome `.pass` and whose aggregate
score is below the processor's alert threshold, the Evaluation has status
NALT.  (The original claim omitted the aggregate-score condition: the source
also alerts when the aggregate of the passing rules reaches the threshold.) -/
theorem c6_detection_all_pass (p : Processor) (input : DecisionInput)
    (hdet : input.typologyResults = [])
    (hpass : ∀ r ∈ input.ruleResults, r.subRuleRef = RuleOutcomePass)
    (hagg : (p.aggregate input.ruleResults).aggregateScore < p.alertThreshold) :
    (p.Process input).status = StatusNoAlert := by
  have hnofail : ¬ ∃ r ∈ input.ruleResults, r.subRuleRef = RuleOutcomeFail := by
    rintro ⟨r, hr, hf⟩
    have := hpass r hr
    rw [this] at hf
    exact absurd hf (by decide)
  have hc : (p.aggregate input.ruleResults).hasCriticalFailure = false := by
    rcases h : (p.aggregate input.ruleResults).hasCriticalFailure
    · rfl
    · exact absurd ((aggregate_hasCritical_iff p input.ruleResults).mp h) hnofail
  unfold Processor.Process
  rw [hdet]
  simp [hc, not_le.mpr hagg]

/-- Concrete input for the C6 witness: three low-score `.pass` results (the
`AllPass` shape from the repository's tests). -/
def inputC6w : DecisionInput :=
  { ruleResults :=
      [ { ruleID := "rule-1", subRuleRef := ".pass", score := 1/10, reason := "", weight := 1 },
        { ruleID := "rule-2", subRuleRef := ".pass", score := 1/5, reason := "", weight := 1 },
        { ruleID := "rule-3", subRuleRef := ".pass", score := 1/10, reason := "", weight := 1 } ]
    typologyResults := [] }

/-- C6 witness: the amended theorem applied at a concrete input. -/
theorem c6_detection_all_pass_witness :
    (NewProcessor.Process inputC6w).status = StatusNoAlert := by
  refine c6_detection_all_pass NewProcessor inputC6w rfl ?_ ?_
  · intro r hr
    simp only [inputC6w, List.mem_cons, List.not_mem_nil, or_false] at hr
    rcases hr with h | h | h <;> subst h <;> rfl
  · rw [show inputC6w.ruleResults =
        [⟨"rule-1", ".pass", 1/10, "", 1⟩, ⟨"rule-2", ".pass", 1/5, "", 1⟩,
          ⟨"rule-3", ".pass", 1/10, "", 1⟩] from rfl]
    rw [aggregate_score_weighted NewProcessor _ _ rfl]
    norm_num [weightedNumerator, weightedDenominator, effectiveWeight, NewProcessor]

/-! ## Typology engine (part_007) -/

/-- The `rule_id → score` map that `TypologyEngine.EvaluateTypologies`
(part_007 lines 80-84) builds from the rule results: a Go map write per
result, later entries overwriting earlier ones. -/
def ruleScoresFold (rs : List RuleResult) (m : String → Option ℚ) :
    String → Option ℚ :=
  rs.foldl (fun acc r => fun id => if id = r.ruleID then some r.score else acc id) m

/-- The score map starting from the empty Go map. -/
def ruleScoresOf (rs : List RuleResult) : String → Option ℚ :=
  ruleScoresFold rs (fun _ => none)

/-- One iteration of the loop of `TypologyEngine.evaluateTypology`
(part_007 lines 107-121): skip rules with no recorded score, otherwise
accumulate `score * weight` and record a contribution. -/
def typologyStep (scores : String → Option ℚ)
    (acc : ℚ × List RuleContribution) (rweight : TypologyRuleWeight) :
    ℚ × List RuleContribution :=
  match scores rweight.ruleID with
  | none => acc
  | some s =>
      (acc.1 + s * rweight.weight,
        acc.2 ++ [⟨rweight.ruleID, s, rweight.weight, s * rweight.weight⟩])

/-- `TypologyEngine.evaluateTypology` (part_007 lines 98-130). -/
def TypologyEngine.evaluateTypology (t : Typology)
    (scores : String → Option ℚ) : TypologyResult :=
  let res := t.rules.foldl (typologyStep scores) (0, [])
  { typologyID := t.id
    typologyName := t.name
    score := res.1
    threshold := t.alertThreshold
    triggered := decide (t.alertThreshold ≤ res.1)
    rules := []
    contributions := res.2 }

/-- `TypologyEngine.EvaluateTypologies` (part_007 lines 70-95) with the
engine's enabled-typology set represented as a list: empty set short-circuits
to no results, otherwise each typology is evaluated against the score map. -/
def TypologyEngine.EvaluateTypologies (typologies : List Typology)
    (ruleResults : List RuleResult) : List TypologyResult :=
  if typologies.isEmpty then []
  else typologies.map fun t =>
    TypologyEngine.evaluateTypology t (ruleScoresOf ruleResults)

/-- Claim-side typology score: sum of `score * weight` over exactly the
listed rules that have a recorded score, in order, skipping the others. -/
def typologyScoreSpec (t : Typology) (scores : String → Option ℚ) : ℚ :=
  (t.rules.filterMap fun rweight =>
    (scores rweight.ruleID).map fun s => s * rweight.weight).sum

/-- Claim-side contribution list: one record per listed rule that has a
recorded score. -/
def typologyContributionsSpec (t : Typology) (scores : String → Option ℚ) :
    List RuleContribution :=
  t.rules.filterMap fun rweight =>
    (scores rweight.ruleID).map fun s =>
      ⟨rweight.ruleID, s, rweight.weight, s * rweight.weight⟩

theorem foldl_typologyStep (scores : String → Option ℚ)
    (rules : List TypologyRuleWeight) (acc : ℚ × List RuleContribution) :
    (rules.foldl (typologyStep scores) acc).1 =
        acc.1 + (rules.filterMap fun rweight =>
          (scores rweight.ruleID).map fun s => s * rweight.weight).sum ∧
      (rules.foldl (typologyStep scores) acc).2 =
        acc.2 ++ (rules.filterMap fun rweight =>
          (scores rweight.ruleID).map fun s =>
            ⟨rweight.ruleID, s, rweight.weight, s * rweight.weight⟩) := by
  induction rules generalizing acc with
  | nil => simp
  | cons rweight rules ih =>
      rcases hs : scores rweight.ruleID with _ | s
      · have hstep : typologyStep scores acc rweight = acc := by
          simp [typologyStep, hs]
        simp [List.foldl_cons, hstep, hs, ih]
      · have hstep : typologyStep scores acc rweight =
            (acc.1 + s * rweight.weight,
              acc.2 ++ [⟨rweight.ruleID, s, rweight.weight, s * rweight.weight⟩]) := by
          simp [typologyStep, hs]
        have h := ih (typologyStep scores acc rweight)
        rw [List.foldl_cons] at *
        rw [h.1, h.2, hstep]
        simp [hs, add_assoc]

theorem ruleScoresFold_isSome (rs : List RuleResult) (m : String → Option ℚ)
    (id : String) :
    (ruleScoresFold rs m id).isSome = true ↔
      (∃ r ∈ rs, r.ruleID = id) ∨ (m id).isSome = true := by
  induction rs generalizing m with
  | nil => simp [ruleScoresFold]
  | cons r rs ih =>
      rw [ruleScoresFold, List.foldl_cons]
      rw [show List.foldl (fun acc r => fun id =>
            if id = r.ruleID then some r.score else acc id)
            (fun id => if id = r.ruleID then some r.score else m id) rs =
          ruleScoresFold rs (fun id => if id = r.ruleID then some r.score else m id)
          from rfl]
      rw [ih]
      by_cases hid : id = r.ruleID
      · simp [hid]
      · simp only [if_neg hid]
        constructor
        · rintro (⟨r', hr', hid'⟩ | h)
          · exact Or.inl ⟨r', List.mem_cons_of_mem r hr', hid'⟩
          · exact Or.inr h
        · rintro (⟨r', hr', hr'id⟩ | h)
          · rcases List.mem_cons.mp hr' with h' | h'
            · subst h'
              exact absurd hr'id (fun hc => hid hc.symm)
            · exact Or.inl ⟨r', h', hr'id⟩
          · exact Or.inr h

/-! ## C5 : per-typology evaluation -/

/-- Concrete typology refuting the final clause of C5 as stated: alert
threshold 0, one listed rule, evaluated against an empty rule-result list. -/
def typologyC5 : Typology :=
  { id := "t-zero", name := "zero threshold", rules := [⟨"r1", 1⟩],
    alertThreshold := 0, enabled := true }

/-- C5 counterexample: with no listed rule appearing in the rule results the
score is 0 as claimed, but `triggered` is `0 ≥ alert_threshold`, which at
threshold 0 is `true` — the claim's "triggered is false" is false here. -/
theorem c5_counterexample :
    (TypologyEngine.evaluateTypology typologyC5 (ruleScoresOf [])).score = 0 ∧
      (TypologyEngine.evaluateTypology typologyC5 (ruleScoresOf [])).triggered = true := by
  constructor <;> rfl

/-- C5 (amended). For every typology T and rule-result list R, the typology
engine computes T's score as the sum of `rule_score * weight` over exactly
those rules listed in T that appear in R (a rule appears iff the score map
has an entry for it, iff some result in R carries its id), skipping listed
rules absent from R, records one contribution per included rule, and sets
`triggered` iff `score ≥ alert_threshold`; when no rule listed in T appears
in R the score is 0, and `triggered` is then false provided T's alert
threshold is positive (at a non-positive threshold the source sets
`triggered = (0 ≥ threshold) = true`). -/
theorem c5_typology_evaluation (t : Typology) (rs : List RuleResult) :
    (TypologyEngine.evaluateTypology t (ruleScoresOf rs)).score =
        typologyScoreSpec t (ruleScoresOf rs) ∧
      (TypologyEngine.evaluateTypology t (ruleScoresOf rs)).contributions =
        typologyContributionsSpec t (ruleScoresOf rs) ∧
      (∀ id, (ruleScoresOf rs id).isSome = true ↔ ∃ r ∈ rs, r.ruleID = id) ∧
      ((TypologyEngine.evaluateTypology t (ruleScoresOf rs)).triggered = true ↔
        t.alertThreshold ≤
          (TypologyEngine.evaluateTypology t (ruleScoresOf rs)).score) ∧
      ((∀ rweight ∈ t.rules, ruleScoresOf rs rweight.ruleID = none) →
        (TypologyEngine.evaluateTypology t (ruleScoresOf rs)).score = 0 ∧
          (0 < t.alertThreshold →
            (TypologyEngine.evaluateTypology t (ruleScoresOf rs)).triggered = false)) := by
  have hfold := foldl_typologyStep (ruleScoresOf rs) t.rules (0, [])
  refine ⟨?_, ?_, ?_, ?_, ?_⟩
  · rw [TypologyEngine.evaluateTypology]
    rw [hfold.1]
    simp [typologyScoreSpec]
  · rw [TypologyEngine.evaluateTypology]
    rw [hfold.2]
    simp [typologyContributionsSpec]
  · intro id
    rw [ruleScoresOf, ruleScoresFold_isSome]
    simp
  · rw [TypologyEngine.evaluateTypology]
    simp
  · intro habsent
    have hscore : (TypologyEngine.evaluateTypology t (ruleScoresOf rs)).score = 0 := by
      rw [TypologyEngine.evaluateTypology]
      rw [hfold.1]
      have : (t.rules.filterMap fun rweight =>
          (ruleScoresOf rs rweight.ruleID).map fun s => s * rweight.weight) = [] := by
        rw [List.filterMap_eq_nil_iff]
        intro rweight hr
        rw [habsent rweight hr]
        rfl
      simp [this]
    refine ⟨hscore, fun hpos => ?_⟩
    have := hscore
    rw [TypologyEngine.evaluateTypology] at this ⊢
    simp only [decide_eq_false_iff_not, not_le]
    rw [show (t.rules.foldl (typologyStep (ruleScoresOf rs)) (0, [])).1 = (0 : ℚ) from by
      simpa [TypologyEngine.evaluateTypology] using this]
    exact hpos

/-- Concrete data for the C5 witness: typology t1 = {rules: [(r1, 1)],
threshold 1/2} against a single result for r1 with score 4/5 (the
"compliance with typology" scenario of the spec's test section). -/
def typologyC5w : Typology :=
  { id := "t1", name := "t1", rules := [⟨"r1", 1⟩], alertThreshold := 1/2,
    enabled := true }

/-- Rule results for the C5 witness. -/
def resultsC5w : List RuleResult :=
  [ { ruleID := "r1", subRuleRef := ".review", score := 4/5, reason := "", weight := 1 } ]

/-- C5 witness: the amended theorem applied at concrete inputs; the lookup
membership clause and the all-absent clause are discharged on the empty
result list in a second application. -/
theorem c5_typology_evaluation_witness :
    (TypologyEngine.evaluateTypology typologyC5w (ruleScoresOf resultsC5w)).score =
        typologyScoreSpec typologyC5w (ruleScoresOf resultsC5w) ∧
      ((TypologyEngine.evaluateTypology typologyC5w (ruleScoresOf [])).score = 0 ∧
        (0 < typologyC5w.alertThreshold →
          (TypologyEngine.evaluateTypology typologyC5w (ruleScoresOf [])).triggered = false)) :=
  ⟨(c5_typology_evaluation typologyC5w resultsC5w).1,
    (c5_typology_evaluation typologyC5w []).2.2.2.2
      (fun _ _ => rfl)⟩

/-! ## Rule engine state (part_008) -/

/-- `rules.CompiledRule` : a rule config plus its compiled program.  The CEL
program itself is opaque; the engine only stores and retrieves it, so it is
kept as a type parameter and compilation as an abstract fallible function
`RuleConfig → Except String Prog` (mirroring `compileRule`'s `(program, error)`
shape). -/
structure CompiledRule (Prog : Type) where
  config : RuleConfig
  program : Prog
deriving Repr, DecidableEq

/-- A Go `map[string]*CompiledRule` write `m[k] = v`: replace-or-append on an
association-list representation (Go maps are unordered; only lookup matters). -/
def mapInsert {α : Type} (m : List (String × α)) (k : String) (v : α) :
    List (String × α) :=
  (m.filter fun p => p.1 ≠ k) ++ [(k, v)]

/-- A Go map read `m[k]`. -/
def mapLookup {α : Type} (k : String) : List (String × α) → Option α
  | [] => none
  | (k', v) :: rest => if k = k' then some v else mapLookup k rest

/-- `rules.Engine` : the live set `compiledRules` (the velocity getter and
worker bound play no role in the claims about the live set). -/
structure Engine (Prog : Type) where
  compiledRules : List (String × CompiledRule Prog)
deriving Repr, DecidableEq

/-- `Engine.LoadRule` (part_008 lines 79-91): compile, then publish a single
entry into the live set; on a compile error the live set is untouched. -/
def Engine.LoadRule {Prog : Type} (compile : RuleConfig → Except String Prog)
    (e : Engine Prog) (cfg : RuleConfig) : Engine Prog × Option String :=
  match compile cfg with
  | .error msg => (e, some msg)
  | .ok prog =>
      ({ compiledRules := mapInsert e.compiledRules cfg.id ⟨cfg, prog⟩ }, none)

/-- The loop of `Engine.ReloadRules` (part_008 lines 287-298): build a fresh
map, skipping disabled configs, aborting on the first compile error. -/
def reloadBuild {Prog : Type} (compile : RuleConfig → Except String Prog) :
    List RuleConfig → List (String × CompiledRule Prog) →
      Except String (List (String × CompiledRule Prog))
  | [], m => .ok m
  | cfg :: rest, m =>
      if cfg.enabled then
        match compile cfg with
        | .error e => .error e
        | .ok prog => reloadBuild compile rest (mapInsert m cfg.id ⟨cfg, prog⟩)
      else reloadBuild compile rest m

/-- `Engine.ReloadRules` (part_008 lines 281-303): build the new map starting
from empty and swap it in only if every compile succeeded; on error the
previous live set stays in place. -/
def Engine.ReloadRules {Prog : Type} (compile : RuleConfig → Except String Prog)
    (e : Engine Prog) (configs : List RuleConfig) : Engine Prog × Option String :=
  match reloadBuild compile configs [] with
  | .error msg => (e, some msg)
  | .ok newRules => ({ compiledRules := newRules }, none)

/-- `Engine.GetLoadedRules` (part_008 lines 305-314): snapshot of the loaded
configs. -/
def Engine.GetLoadedRules {Prog : Type} (e : Engine Prog) : List RuleConfig :=
  e.compiledRules.map fun p => p.2.config

theorem mapLookup_append {α : Type} (k : String) (xs ys : List (String × α)) :
    mapLookup k (xs ++ ys) =
      match mapLookup k xs with
      | some v => some v
      | none => mapLookup k ys := by
  induction xs with
  | nil => simp [mapLookup]
  | cons p xs ih =>
      rcases p with ⟨k', v⟩
      by_cases h : k = k' <;> simp [mapLookup, h, ih]

theorem mapLookup_filter_ne {α : Type} (k k' : String) (m : List (String × α))
    (h : k ≠ k') :
    mapLookup k (m.filter fun p => p.1 ≠ k') = mapLookup k m := by
  induction m with
  | nil => rfl
  | cons p m ih =>
      rcases p with ⟨k'', v⟩
      rw [List.filter_cons]
      by_cases h2 : k'' = k'
      · rw [if_neg (by simp [h2]), ih]
        simp only [mapLookup]
        rw [if_neg (fun hc => h (hc.trans h2))]
      · rw [if_pos (by simp [h2])]
        simp only [mapLookup]
        by_cases h3 : k = k''
        · rw [if_pos h3, if_pos h3]
        · rw [if_neg h3, if_neg h3, ih]

theorem mapLookup_filter_self {α : Type} (k : String) (m : List (String × α)) :
    mapLookup k (m.filter fun p => p.1 ≠ k) = none := by
  induction m with
  | nil => rfl
  | cons p m ih =>
      rcases p with ⟨k', v⟩
      rw [List.filter_cons]
      by_cases h2 : k' = k
      · rw [if_neg (by simp [h2])]
        exact ih
      · rw [if_pos (by simp [h2])]
        simp only [mapLookup]
        rw [if_neg (fun hc : k = k' => h2 hc.symm), ih]

theorem mapLookup_mapInsert {α : Type} (k id : String) (m : List (String × α))
    (v : α) :
    mapLookup k (mapInsert m id v) =
      if k = id then some v else mapLookup k m := by
  rw [mapInsert, mapLookup_append]
  by_cases h : k = id
  · subst h
    rw [mapLookup_filter_self]
    simp [mapLookup]
  · rw [mapLookup_filter_ne k id m h]
    rw [if_neg h]
    cases hm : mapLookup k m <;> simp [mapLookup, h]

/-! ## C7 : ReloadRules is all-or-nothing -/

theorem reloadBuild_ok {Prog : Type} (compile : RuleConfig → Except String Prog)
    (configs : List RuleConfig)
    (hall : ∀ cfg ∈ configs, cfg.enabled = true → (compile cfg).isOk = true) :
    ∀ m : List (String × CompiledRule Prog),
      ∃ m', reloadBuild compile configs m = .ok m' ∧
        (∀ id, (mapLookup id m').isSome = true ↔
          (∃ cfg ∈ configs, cfg.enabled = true ∧ cfg.id = id) ∨
            (mapLookup id m).isSome = true) ∧
        (∀ id cr, mapLookup id m' = some cr →
          (cr.config ∈ configs ∧ cr.config.id = id ∧ cr.config.enabled = true ∧
              compile cr.config = .ok cr.program) ∨
            mapLookup id m = some cr) := by
  induction configs with
  | nil =>
      intro m
      exact ⟨m, rfl, fun id => by simp, fun id cr h => Or.inr h⟩
  | cons cfg rest ih =>
      intro m
      by_cases hen : cfg.enabled = true
      · have hok : (compile cfg).isOk = true := hall cfg (by simp) hen
        rcases hc : compile cfg with msg | prog
        · rw [hc] at hok
          exact absurd hok (by simp [Except.isOk, Except.toBool])
        have hallr : ∀ c ∈ rest, c.enabled = true → (compile c).isOk = true :=
          fun c hcr => hall c (List.mem_cons_of_mem cfg hcr)
        rcases ih hallr (mapInsert m cfg.id ⟨cfg, prog⟩) with ⟨m', hbuild, hsome, hval⟩
        refine ⟨m', ?_, ?_, ?_⟩
        · rw [reloadBuild, if_pos hen, hc]
          exact hbuild
        · intro id
          rw [hsome id, mapLookup_mapInsert]
          by_cases hid : id = cfg.id
          · subst hid
            simp [hen]
          · rw [if_neg hid]
            constructor
            · rintro (⟨c, hcr, hce, hcid⟩ | h)
              · exact Or.inl ⟨c, List.mem_cons_of_mem cfg hcr, hce, hcid⟩
              · exact Or.inr h
            · rintro (⟨c, hcr, hce, hcid⟩ | h)
              · rcases List.mem_cons.mp hcr with h' | h'
                · subst h'
                  exact absurd hcid.symm hid
                · exact Or.inl ⟨c, h', hce, hcid⟩
              · exact Or.inr h
        · intro id cr hlook
          rcases hval id cr hlook with h | h
          · exact Or.inl ⟨List.mem_cons_of_mem cfg h.1, h.2⟩
          · rw [mapLookup_mapInsert] at h
            by_cases hid : id = cfg.id
            · rw [if_pos hid] at h
              have hcr2 : cr = ⟨cfg, prog⟩ := (Option.some.inj h).symm
              subst hcr2
              exact Or.inl ⟨List.mem_cons_self cfg rest, hid.symm, hen, hc⟩
            · rw [if_neg hid] at h
              exact Or.inr h
      · have hallr : ∀ c ∈ rest, c.enabled = true → (compile c).isOk = true :=
          fun c hcr => hall c (List.mem_cons_of_mem cfg hcr)
        rcases ih hallr m with ⟨m', hbuild, hsome, hval⟩
        refine ⟨m', ?_, ?_, ?_⟩
        · rw [reloadBuild, if_neg (by simpa using hen)]
          exact hbuild
        · intro id
          rw [hsome id]
          constructor
          · rintro (⟨c, hcr, hce, hcid⟩ | h)
            · exact Or.inl ⟨c, List.mem_cons_of_mem cfg hcr, hce, hcid⟩
            · exact Or.inr h
          · rintro (⟨c, hcr, hce, hcid⟩ | h)
            · rcases List.mem_cons.mp hcr with h' | h'
              · subst h'
                exact absurd hce hen
              · exact Or.inl ⟨c, h', hce, hcid⟩
            · exact Or.inr h
        · intro id cr hlook
          rcases hval id cr hlook with h | h
          · exact Or.inl ⟨List.mem_cons_of_mem cfg h.1, h.2⟩
          · exact Or.inr h

theorem reloadBuild_error {Prog : Type} (compile : RuleConfig → Except String Prog)
    (configs : List RuleConfig)
    (hfail : ∃ cfg ∈ configs, cfg.enabled = true ∧ (compile cfg).isOk = false) :
    ∀ m : List (String × CompiledRule Prog),
      ∃ msg, reloadBuild compile configs m = .error msg := by
  induction configs with
  | nil => exact absurd hfail (by simp)
  | cons cfg rest ih =>
      intro m
      rcases hfail with ⟨c, hcr, hce, hcfail⟩
      rcases List.mem_cons.mp hcr with h' | h'
      · subst h'
        rw [reloadBuild, if_pos hce]
        rcases hc : compile c with msg | prog
        · exact ⟨msg, rfl⟩
        · rw [hc] at hcfail
          exact absurd hcfail (by simp [Except.isOk, Except.toBool])
      · by_cases hen : cfg.enabled = true
        · rcases hc : compile cfg with msg | prog
          · rw [reloadBuild, if_pos hen, hc]
            exact ⟨msg, rfl⟩
          · rw [reloadBuild, if_pos hen, hc]
            exact ih ⟨c, h', hce, hcfail⟩ _
        · rw [reloadBuild, if_neg (by simpa using hen)]
          exact ih ⟨c, h', hce, hcfail⟩ m

/-- C7. ReloadAll is all-or-nothing: when every enabled config in C compiles,
`ReloadRules` succeeds and the live set becomes exactly the keyed set built
from C ignoring disabled configs (an id is present iff some enabled config in
C carries it — entries not in C disappear — and every stored entry is the
compilation of an enabled config of C); when compiling any enabled config of
C fails, `ReloadRules` reports an error and the live rule set is exactly what
it was before the call. -/
theorem c7_reload_all_or_nothing {Prog : Type}
    (compile : RuleConfig → Except String Prog) (e : Engine Prog)
    (configs : List RuleConfig) :
    ((∀ cfg ∈ configs, cfg.enabled = true → (compile cfg).isOk = true) →
      (e.ReloadRules compile configs).2 = none ∧
        (∀ id, (mapLookup id (e.ReloadRules compile configs).1.compiledRules).isSome = true ↔
          ∃ cfg ∈ configs, cfg.enabled = true ∧ cfg.id = id) ∧
        (∀ id cr, mapLookup id (e.ReloadRules compile configs).1.compiledRules = some cr →
          cr.config ∈ configs ∧ cr.config.id = id ∧ cr.config.enabled = true ∧
            compile cr.config = .ok cr.program)) ∧
    ((∃ cfg ∈ configs, cfg.enabled = true ∧ (compile cfg).isOk = false) →
      (e.ReloadRules compile configs).1 = e ∧
        (e.ReloadRules compile configs).2.isSome = true) := by
  constructor
  · intro hall
    rcases reloadBuild_ok compile configs hall [] with ⟨m', hbuild, hsome, hval⟩
    have hres : e.ReloadRules compile configs = ({ compiledRules := m' }, none) := by
      rw [Engine.ReloadRules, hbuild]
    refine ⟨by rw [hres], fun id => ?_, fun id cr hlook => ?_⟩
    · rw [hres]
      have := hsome id
      simpa [mapLookup] using this
    · rw [hres] at hlook
      rcases hval id cr hlook with h | h
      · exact h
      · simp [mapLookup] at h
  · intro hfail
    rcases reloadBuild_error compile configs hfail [] with ⟨msg, hbuild⟩
    have hres : e.ReloadRules compile configs = (e, some msg) := by
      rw [Engine.ReloadRules, hbuild]
    rw [hres]
    exact ⟨rfl, rfl⟩

/-- Concrete compiler for the C7 witness: rejects the expression "bad(". -/
def compileC7 : RuleConfig → Except String ℕ :=
  fun cfg => if cfg.expression = "bad(" then .error "compile failed"
             else .ok cfg.expression.length

/-- Concrete engine for the C7 witness, holding one pre-existing rule that a
successful reload must drop. -/
def engineC7 : Engine ℕ :=
  { compiledRules := [("old-rule",
      ⟨{ id := "old-rule", tenantID := "*", name := "Old", expression := "amount > 1",
         bands := [], weight := 1, enabled := true }, 10⟩)] }

/-- Enabled, compiling config for the C7 witness. -/
def cfgGood : RuleConfig :=
  { id := "r-good", tenantID := "*", name := "Good", expression := "amount > 10000",
    bands := [], weight := 1, enabled := true }

/-- Disabled config for the C7 witness (must be ignored by the reload). -/
def cfgDisabled : RuleConfig :=
  { id := "r-off", tenantID := "*", name := "Off", expression := "amount > 5",
    bands := [], weight := 1, enabled := false }

/-- Enabled, non-compiling config for the C7 witness. -/
def cfgBad : RuleConfig :=
  { id := "r-bad", tenantID := "*", name := "Bad", expression := "bad(",
    bands := [], weight := 1, enabled := true }

/-- C7 witness: the theorem applied at concrete inputs — a fully compiling
batch succeeds, keys not in the batch (the pre-existing "old-rule") are
gone and the disabled config is ignored; a batch with one failing config
reports an error and leaves the engine exactly as it was. -/
theorem c7_reload_all_or_nothing_witness :
    (engineC7.ReloadRules compileC7 [cfgGood, cfgDisabled]).2 = none ∧
      (mapLookup "r-good"
        (engineC7.ReloadRules compileC7 [cfgGood, cfgDisabled]).1.compiledRules).isSome = true ∧
      (mapLookup "old-rule"
        (engineC7.ReloadRules compileC7 [cfgGood, cfgDisabled]).1.compiledRules).isSome = false ∧
      (mapLookup "r-off"
        (engineC7.ReloadRules compileC7 [cfgGood, cfgDisabled]).1.compiledRules).isSome = false ∧
      (engineC7.ReloadRules compileC7 [cfgGood, cfgBad]).1 = engineC7 ∧
      (engineC7.ReloadRules compileC7 [cfgGood, cfgBad]).2.isSome = true := by
  have hgood := (c7_reload_all_or_nothing compileC7 engineC7 [cfgGood, cfgDisabled]).1
    (by decide)
  have hbad := (c7_reload_all_or_nothing compileC7 engineC7 [cfgGood, cfgBad]).2
    ⟨cfgBad, by decide, by decide, by decide⟩
  refine ⟨hgood.1, (hgood.2.1 "r-good").mpr ⟨cfgGood, by decide, by decide, by decide⟩,
    ?_, ?_, hbad.1, hbad.2⟩
  · cases h : (mapLookup "old-rule"
        (engineC7.ReloadRules compileC7 [cfgGood, cfgDisabled]).1.compiledRules).isSome
    · rfl
    · exact absurd ((hgood.2.1 "old-rule").mp h) (by decide)
  · cases h : (mapLookup "r-off"
        (engineC7.ReloadRules compileC7 [cfgGood, cfgDisabled]).1.compiledRules).isSome
    · rfl
    · exact absurd ((hgood.2.1 "r-off").mp h) (by decide)

/-! ## Rule creation through the management surface (handler.go CreateRule) -/

/-- `api.GlobalTenantID` (handler.go line 418). -/
def GlobalTenantID : String := "*"

/-- `api.CreateRuleRequest` (handler.go lines 344-353). -/
structure CreateRuleRequest where
  id : String
  name : String
  description : String
  expression : String
  bands : List RuleBand
  weight : ℚ
  enabled : Bool
deriving Repr, DecidableEq

/-- The rule config that `Handler.CreateRule` builds from a request
(handler.go lines 378-389). -/
def ruleConfigOfCreate (req : CreateRuleRequest) : RuleConfig :=
  { id := req.id, tenantID := GlobalTenantID, name := req.name,
    expression := req.expression, bands := req.bands, weight := req.weight,
    enabled := req.enabled }

/-- `Handler.CreateRule` (handler.go lines 357-413): validate the request,
then call `Engine.LoadRule` — which on success publishes the compiled rule
into the live set — then persist; returns the resulting engine state and the
HTTP status (400 invalid, 201 created, 500 on a failed repository save,
which still leaves the engine mutated). -/
def Handler.CreateRule {Prog : Type} (compile : RuleConfig → Except String Prog)
    (repoSaveOk : Bool) (e : Engine Prog) (req : CreateRuleRequest) :
    Engine Prog × ℕ :=
  if req.id = "" ∨ req.name = "" ∨ req.expression = "" then (e, 400)
  else
    match Engine.LoadRule compile e (ruleConfigOfCreate req) with
    | (e2, some _) => (e2, 400)
    | (e2, none) => if repoSaveOk then (e2, 201) else (e2, 500)

/-- A compiler accepting every expression, for C8's concrete scenario (the
request's expression "1 == 1" is valid CEL). -/
def compileC8 : RuleConfig → Except String Unit := fun _ => .ok ()

/-- Concrete engine for the C8 scenario: one rule currently live. -/
def engineC8 : Engine Unit :=
  { compiledRules := [("existing-rule",
      ⟨{ id := "existing-rule", tenantID := "*", name := "Existing",
         expression := "amount > 100", bands := [], weight := 1, enabled := true },
        ()⟩)] }

/-- The create request of the repository's own hot-reload test
("pre-reload-rule", expression "1 == 1"). -/
def reqC8 : CreateRuleRequest :=
  { id := "pre-reload-rule", name := "Pre Reload Rule",
    description := "Should not be active before reload", expression := "1 == 1",
    bands := [⟨some 1, none, ".fail", "Always fail"⟩,
              ⟨some 0, some 1, ".pass", "Not triggered"⟩],
    weight := 1, enabled := true }

/-! ## C8 : rule creation and the live set -/

/-- C8, evaluated at the failing input: the source's `Handler.CreateRule`
routes through `Engine.LoadRule`, so after a successful create (201) and
before any reload the live set already contains the new rule — the claim
(and the repository's own test and the handler's own doc comment) say it
must not. -/
theorem c8_create_mutates_live_set :
    (Handler.CreateRule compileC8 true engineC8 reqC8).2 = 201 ∧
      "pre-reload-rule" ∉ (engineC8.GetLoadedRules.map RuleConfig.id) ∧
      "pre-reload-rule" ∈
        ((Handler.CreateRule compileC8 true engineC8 reqC8).1.GetLoadedRules.map
          RuleConfig.id) := by
  refine ⟨rfl, by decide, ?_⟩
  decide

/-! ## HTTP surface decision paths (handler.go) -/

/-- `domain.ModeDetection` (config.go line 33). -/
def ModeDetection : String := "detection"

/-- `domain.ModeCompliance` (config.go line 38). -/
def ModeCompliance : String := "compliance"

/-- `Handler.Ready` (handler.go lines 236-240): unconditionally status 200
with body `ready = "true"` — it reads no state at all. -/
def Handler.Ready : ℕ × String := (200, "true")

/-- `Handler.Health` (handler.go lines 212-233): "healthy", downgraded to
"degraded" only when a present repository or cache fails its ping (`none` =
dependency absent, `some b` = ping success).  Mode and typology count are
not consulted (the handler does not even hold them). -/
def Handler.Health (repoPing cachePing : Option Bool) : ℕ × String :=
  let status := "healthy"
  let status := match repoPing with | some false => "degraded" | _ => status
  let status := match cachePing with | some false => "degraded" | _ => status
  (200, status)

/-- `api.TransactionRequest` : the fields validated by `Handler.Evaluate`
(handler.go lines 94-110). -/
structure TransactionRequest where
  type : String
  debtorID : String
  creditorID : String
  amountValue : ℚ
deriving Repr, DecidableEq

/-- The HTTP status decision path of `Handler.Evaluate` (handler.go lines
78-209): 400 on a failed field validation, 500 on a rule-engine error,
otherwise 200.  `mode` and `typologyCount` are parameters only to record
that the source path never consults them — there is no compliance-readiness
gate. -/
def evaluateHTTPStatus (mode : String) (typologyCount : ℕ)
    (req : TransactionRequest) (ruleEvalOk : Bool) : ℕ :=
  if req.type = "" then 400
  else if req.debtorID = "" ∨ req.creditorID = "" then 400
  else if req.amountValue ≤ 0 then 400
  else if ruleEvalOk then 200 else 500

/-- The typology-engine invocation condition of `Handler.Evaluate`
(handler.go lines 168-171): invoke iff a typology engine is present and at
least one typology is loaded.  The configured server mode is not consulted
(`mode` is a parameter only to record that). -/
def evaluateInvokesTypologies (mode : String) (typologyEngineAvailable : Bool)
    (typologyCount : ℕ) : Bool :=
  typologyEngineAvailable && decide (0 < typologyCount)

/-- Valid request for the C9 failing scenario. -/
def reqC9 : TransactionRequest :=
  { type := "transfer", debtorID := "debtor-001", creditorID := "creditor-001",
    amountValue := 1000 }

/-! ## C9 : compliance readiness -/

/-- C9, evaluated at the failing input (mode = compliance, zero typologies
loaded, healthy dependencies): the source's `/evaluate` path still answers
200, `/ready` answers 200 with `ready = "true"`, and `/health` answers 200
with status "healthy" — not the 503 / 503 `ready=false` / 200 degraded the
claim (and the repository's own API tests) require. -/
theorem c9_no_compliance_readiness_gate :
    evaluateHTTPStatus ModeCompliance 0 reqC9 true = 200 ∧
      Handler.Ready = (200, "true") ∧
      Handler.Health (some true) (some true) = (200, "healthy") :=
  ⟨by decide, rfl, rfl⟩

/-! ## C10 : typology invocation and the mode -/

/-- C10, evaluated at the failing input: with one typology loaded the
source's request path invokes the typology engine even when the configured
mode is detection (the condition only checks engine presence and a positive
count), contradicting the claim that detection mode never invokes typology
evaluation; the invocation condition is identical across modes. -/
theorem c10_invocation_ignores_mode :
    evaluateInvokesTypologies ModeDetection true 1 = true ∧
      evaluateInvokesTypologies ModeCompliance true 1 = true ∧
      evaluateInvokesTypologies ModeDetection true 0 = false ∧
      evaluateInvokesTypologies ModeDetection true 1 =
        evaluateInvokesTypologies ModeCompliance true 1 :=
  ⟨rfl, rfl, rfl, rfl⟩
